import Mathlib

/-!
Verification development for two source files of the `rapier` repository:

* `src/dynamics/ccd/toi_entry.rs` — the CCD time-of-impact estimator
  (`TOIEntry::try_from_colliders`) together with the ordering instances on
  `TOIEntry`;
* `src/geometry/broad_phase_sieve_tree.rs` — the sieve-tree broad phase
  (`BroadPhaseSieveTree::update`).

The Rust scalar type `Real` (`f32`/`f64`) is embedded as an arbitrary
linearly ordered ring `R`: the source performs only addition, subtraction,
multiplication, `abs`, `max` and comparisons on it, so every theorem below
holds for any instantiation (in particular `ℚ` or `ℝ`), while concrete
witnesses instantiate `R := ℤ`, where the kernel can evaluate.  The single
place where IEEE special values matter — the `PartialOrd`/`PartialEq`/`Ord`
instances on `TOIEntry`, which are partial exactly on NaN — embeds a float
as `Option R` with `none` playing the role of NaN.

External capabilities that the source consumes through traits or other crates
(`parry`'s `QueryDispatcher` and `NonlinearRigidMotion`, `nalgebra`'s vector
norm, the `sieve_tree` crate, and the `Coarena`/`ColliderSet`/`RigidBodySet`
stores that live elsewhere in the repository) are modelled from the spec as
explicit parameters or small structures, mirroring how the source itself is
generic over `QD: ?Sized + QueryDispatcher`.
-/

/-! ## Scalars, vectors and external geometric capabilities -/

/-- Embedding of the 2-dimensional `na::Vector2<Real>` (the `dim2` feature of
the source is modelled; `dim3` differs only in taking a norm instead of `abs`
of the angular velocity). -/
abbrev Vec2 (R : Type) : Type := R × R

/-- Scalar multiplication of a vector, used for the
`frozen.is_none() as u32 as Real * ...` products of the source. -/
def smul2 {R : Type} [LinearOrderedRing R] (a : R) (v : Vec2 R) : Vec2 R :=
  (a * v.1, a * v.2)

/-- Componentwise vector subtraction (`linvel2 - linvel1`). -/
def sub2 {R : Type} [LinearOrderedRing R] (u v : Vec2 R) : Vec2 R :=
  (u.1 - v.1, u.2 - v.2)

/-- Modelled from the spec: a collider shape (`ColliderShape`, a shared shape
from the external `parry` crate).  The estimator reads only its intrinsic CCD
thickness and hands the shape to the query dispatcher; `tag` keeps distinct
geometries distinguishable for the abstract dispatcher. -/
structure Shape (R : Type) where
  ccd_thickness : R
  tag : ℕ
deriving DecidableEq

/-- Modelled from the spec: the operations on rigid poses and screw motions
supplied by the external `parry`/`nalgebra` crates.  `Iso` is an opaque type
of rigid transforms; the estimator only composes and inverts poses and
evaluates a body screw motion at a time, so those are the only operations
required.  `nrm` is the Euclidean vector norm (nonnegative, as every norm
is). -/
structure GeomOps (R : Type) [LinearOrderedRing R] (Iso : Type) where
  isoId : Iso
  isoMul : Iso → Iso → Iso
  isoInv : Iso → Iso
  nrm : Vec2 R → R
  nrm_nonneg : ∀ v, 0 ≤ nrm v
  screw : Iso → Vec2 R → Vec2 R → R → R → Iso

/-- Modelled from the spec: a motion is a time-parameterized rigid transform
(spec §3, Motion description). -/
abbrev Motion (R Iso : Type) : Type := R → Iso

/-- Modelled from the spec: `NonlinearRigidMotion::identity()` — the constant
identity pose. -/
def identityMotion {R : Type} [LinearOrderedRing R] {Iso : Type} (G : GeomOps R Iso) :
    Motion R Iso :=
  fun _ => G.isoId

/-- Modelled from the spec: `NonlinearRigidMotion::constant_position(pos)`. -/
def constantMotion {R Iso : Type} (pos : Iso) : Motion R Iso := fun _ => pos

/-- Modelled from the spec: `motion.freeze(t)` clamps the trajectory to the
single pose it has at time `t` (spec §3: clamping the trajectory to a single
pose from that time onward). -/
def freezeMotion {R Iso : Type} (m : Motion R Iso) (t : R) : Motion R Iso := fun _ => m t

/-- Modelled from the spec: `motion.prepend(iso)` composes the trajectory with
a fixed offset pose (spec §4.3 step 5: compose with the collider's fixed
offset relative to its owning body). -/
def prependMotion {R : Type} [LinearOrderedRing R] {Iso : Type}
    (G : GeomOps R Iso) (m : Motion R Iso) (iso : Iso) : Motion R Iso :=
  fun t => G.isoMul (m t) iso

/-- Modelled from the spec: `motion.position_at_time(t)`. -/
def positionAtTime {R Iso : Type} (m : Motion R Iso) (t : R) : Iso := m t

/-- Result record of a successful parry time-of-impact query; the estimator
reads only its `toi` field. -/
structure TOIhit (R : Type) where
  toi : R
deriving DecidableEq

/-- Modelled from the spec: the geometric query capability (`parry`'s
`QueryDispatcher`).  `Except Unit` embeds `Result<_, Unsupported>`: the
`.error ()` value is the `Unsupported` signal. -/
structure QueryDispatcher (R Iso : Type) where
  nonlinear_time_of_impact :
    Motion R Iso → Shape R → Motion R Iso → Shape R → R → R → Bool →
      Except Unit (Option (TOIhit R))
  time_of_impact :
    Iso → Vec2 R → Shape R → Shape R → R → Except Unit (Option (TOIhit R))

/-- Rust `Result::or_else`. -/
def exceptOrElse {α : Type} (r : Except Unit α) (f : Unit → Except Unit α) : Except Unit α :=
  match r with
  | .ok v => .ok v
  | .error e => f e

/-- Rust `Result::ok`. -/
def exceptOk {α : Type} : Except Unit α → Option α
  | .ok v => some v
  | .error _ => none

/-! ## Rapier data carried into the estimator

Modelled from the spec (§6): these structs live in the repository's
`dynamics`/`geometry` modules outside the two source files; the spec lists
exactly the fields the estimator reads. -/

/-- Modelled from the spec: `ColliderType` — a collider is either solid or a
sensor (non-physical trigger). -/
inductive ColliderType : Type
  | solid
  | sensor
deriving DecidableEq

/-- Rust `ColliderType::is_sensor`. -/
def ColliderType.is_sensor : ColliderType → Bool
  | .solid => false
  | .sensor => true

/-- Modelled from the spec: `ColliderParent` — owning body handle plus the
collider's fixed pose relative to the body frame. -/
structure ColliderParent (Iso : Type) where
  handle : ℕ
  pos_wrt_parent : Iso

/-- The per-collider tuple `(&ColliderType, &ColliderShape, &ColliderPosition,
Option<&ColliderParent>)` passed to `try_from_colliders`. -/
structure ColliderData (R Iso : Type) where
  co_type : ColliderType
  shape : Shape R
  pos : Iso
  parent : Option (ColliderParent Iso)

/-- Modelled from the spec: `RigidBodyPosition` — current pose and
already-committed next pose. -/
structure RigidBodyPosition (Iso : Type) where
  position : Iso
  next_position : Iso

/-- Modelled from the spec: `RigidBodyVelocity` (2-d: linear velocity vector
and scalar angular velocity). -/
structure RigidBodyVelocity (R : Type) where
  linvel : Vec2 R
  angvel : R

/-- Modelled from the spec: the mass properties read by the estimator — the
local center of mass. -/
structure RigidBodyMassProps (R : Type) where
  local_com : Vec2 R

/-- Modelled from the spec: `RigidBodyCcd` — whether continuous tracking is
active and the per-body maximum CCD sweep radius. -/
structure RigidBodyCcd (R : Type) where
  ccd_active : Bool
  ccd_max_dist : R

/-- The per-body tuple `(&RigidBodyPosition, &RigidBodyVelocity,
&RigidBodyMassProps, &RigidBodyCcd)` passed to `try_from_colliders`. -/
structure BodyData (R Iso : Type) where
  pos : RigidBodyPosition Iso
  vels : RigidBodyVelocity R
  mprops : RigidBodyMassProps R
  ccd : RigidBodyCcd R

/-! ## The impact candidate -/

/-- Embedding of `TOIEntry`.  The `toi` field is a float: `some q` is the
finite value `q`, `none` is an IEEE NaN (the only special value relevant to
the comparison instances). -/
structure TOIEntry (R : Type) where
  toi : Option R
  c1 : ℕ
  b1 : Option ℕ
  c2 : ℕ
  b2 : Option ℕ
  is_intersection_test : Bool
  timestamp : ℕ
deriving DecidableEq

/-- Negation of a float: NaN stays NaN. -/
def fnegF {R : Type} [LinearOrderedRing R] : Option R → Option R
  | some q => some (-q)
  | none => none

/-- Total comparison in a linear order, matching what `partial_cmp` returns
on two non-NaN floats. -/
def cmpQ {R : Type} [LinearOrderedRing R] (a b : R) : Ordering :=
  if a < b then Ordering.lt else if a = b then Ordering.eq else Ordering.gt

/-- IEEE `partial_cmp` on floats: `none` whenever either side is NaN. -/
def fpcmpF {R : Type} [LinearOrderedRing R] : Option R → Option R → Option Ordering
  | some a, some b => some (cmpQ a b)
  | _, _ => none

/-- IEEE `==` on floats: NaN compares unequal to everything, itself
included. -/
def feqF {R : Type} [LinearOrderedRing R] : Option R → Option R → Bool
  | some a, some b => decide (a = b)
  | _, _ => false

/-- Rust `impl PartialOrd for TOIEntry`: compare the negated times. -/
def TOIEntry.pcmp {R : Type} [LinearOrderedRing R] (e1 e2 : TOIEntry R) : Option Ordering :=
  fpcmpF (fnegF e1.toi) (fnegF e2.toi)

/-- Rust `impl Ord for TOIEntry`: `self.partial_cmp(other).unwrap()`.  The
result `none` models the `unwrap` panic (which happens exactly when the
partial comparison is undefined, i.e. on NaN). -/
def TOIEntry.cmp {R : Type} [LinearOrderedRing R] (e1 e2 : TOIEntry R) : Option Ordering :=
  e1.pcmp e2

/-- Rust `impl PartialEq for TOIEntry`: `self.toi == other.toi`. -/
def TOIEntry.beq {R : Type} [LinearOrderedRing R] (e1 e2 : TOIEntry R) : Bool :=
  feqF e1.toi e2.toi

/-! ## try_from_colliders -/

/-- The one Rust panic source in `try_from_colliders`: the
`assert!(start_time <= end_time)` at its head. -/
inductive Abort : Type
  | assertFailure
deriving DecidableEq

/-- The zeroed-when-frozen linear velocity of one side:
`frozen.is_none() as u32 as Real * b.map(|b| b.1.linvel).unwrap_or(zero)`. -/
def tfcLinvel {R : Type} [LinearOrderedRing R] {Iso : Type}
    (b : Option (BodyData R Iso)) (frozen : Option R) : Vec2 R :=
  smul2 (if frozen.isNone then 1 else 0) ((b.map (fun bb => bb.vels.linvel)).getD (0, 0))

/-- The zeroed-when-frozen angular velocity of one side. -/
def tfcAngvel {R : Type} [LinearOrderedRing R] {Iso : Type}
    (b : Option (BodyData R Iso)) (frozen : Option R) : R :=
  (if frozen.isNone then 1 else 0) * ((b.map (fun bb => bb.vels.angvel)).getD 0)

/-- The conservative relative-speed bound `vel12` of the source: norm of the
relative linear velocity plus each side's angular speed scaled by that body's
maximum CCD sweep radius. -/
def tfcVel12 {R : Type} [LinearOrderedRing R] {Iso : Type} (G : GeomOps R Iso)
    (b1 b2 : Option (BodyData R Iso)) (frozen1 frozen2 : Option R) : R :=
  G.nrm (sub2 (tfcLinvel b2 frozen2) (tfcLinvel b1 frozen1))
    + |tfcAngvel b1 frozen1| * ((b1.map (fun bb => bb.ccd.ccd_max_dist)).getD 0)
    + |tfcAngvel b2 frozen2| * ((b2.map (fun bb => bb.ccd.ccd_max_dist)).getD 0)

/-- The thickness margin of the source: sum of both shapes' intrinsic CCD
thicknesses plus the nonnegative part of `smallest_contact_dist`. -/
def tfcThickness {R : Type} [LinearOrderedRing R] {Iso : Type}
    (c1 c2 : ColliderData R Iso) (smallest_contact_dist : R) : R :=
  (c1.shape.ccd_thickness + c2.shape.ccd_thickness) + max smallest_contact_dist 0

/-- Rust `TOIEntry::body_motion`: screw motion about the center of mass when
CCD is active for the body, otherwise the constant already-committed next
position. -/
def body_motion {R : Type} [LinearOrderedRing R] {Iso : Type}
    (G : GeomOps R Iso) (b : BodyData R Iso) : Motion R Iso :=
  if b.ccd.ccd_active then
    fun t => G.screw b.pos.position b.mprops.local_com b.vels.linvel b.vels.angvel t
  else
    constantMotion b.pos.next_position

/-- The world-space trajectory of one collider as built by
`try_from_colliders`: the (possibly frozen) owning-body motion composed with
the collider's fixed offset, or the collider's own world pose when it has no
owning body. -/
def colliderMotion {R : Type} [LinearOrderedRing R] {Iso : Type} (G : GeomOps R Iso)
    (c : ColliderData R Iso) (b : Option (BodyData R Iso)) (frozen : Option R) :
    Motion R Iso :=
  let m := (b.map (body_motion G)).getD (identityMotion G)
  let m := match frozen with
    | some t => freezeMotion m t
    | none => m
  prependMotion G m ((c.parent.map (fun p => p.pos_wrt_parent)).getD c.pos)

/-- The linear-TOI fallback invocation of the source: relative pose of the two
collider motions at `start_time`, constant relative linear velocity
`linvel2 - linvel1`, duration `end_time - start_time`. -/
def linFallback {R : Type} [LinearOrderedRing R] {Iso : Type}
    (G : GeomOps R Iso) (qd : QueryDispatcher R Iso)
    (c1 c2 : ColliderData R Iso) (b1 b2 : Option (BodyData R Iso))
    (frozen1 frozen2 : Option R) (start_time end_time : R) :
    Except Unit (Option (TOIhit R)) :=
  let motion_c1 := colliderMotion G c1 b1 frozen1
  let motion_c2 := colliderMotion G c2 b2 frozen2
  let pos12 := G.isoMul (G.isoInv (positionAtTime motion_c1 start_time))
    (positionAtTime motion_c2 start_time)
  qd.time_of_impact pos12
    (sub2 (tfcLinvel b2 frozen2) (tfcLinvel b1 frozen1))
    c1.shape c2.shape (end_time - start_time)

/-- Packaging of a dispatcher result into the function result:
`let toi = res_toi??; Some(Self::new(...))`. -/
def tfcPack {R Iso : Type} (ch1 ch2 : ℕ) (c1 c2 : ColliderData R Iso)
    (is_intersection_test : Bool) : Option (Option (TOIhit R)) → Option (TOIEntry R)
  | some (some hit) =>
      some ⟨some hit.toi, ch1, (c1.parent.map (fun p => p.handle)), ch2,
        (c2.parent.map (fun p => p.handle)), is_intersection_test, 0⟩
  | _ => none

/-- The body of `try_from_colliders` after the assertion. -/
def tfcBody {R : Type} [LinearOrderedRing R] {Iso : Type}
    (G : GeomOps R Iso) (qd : QueryDispatcher R Iso)
    (ch1 ch2 : ℕ) (c1 c2 : ColliderData R Iso)
    (b1 b2 : Option (BodyData R Iso)) (frozen1 frozen2 : Option R)
    (start_time end_time smallest_contact_dist : R) : Option (TOIEntry R) :=
  if b1.isNone && b2.isNone then none
  else
    let vel12 := tfcVel12 G b1 b2 frozen1 frozen2
    let thickness := tfcThickness c1 c2 smallest_contact_dist
    let is_intersection_test := c1.co_type.is_sensor || c2.co_type.is_sensor
    if (end_time - start_time) * vel12 < thickness then none
    else
      let motion_c1 := colliderMotion G c1 b1 frozen1
      let motion_c2 := colliderMotion G c2 b2 frozen2
      let stop_at_penetration := is_intersection_test
      let res_toi := exceptOk (exceptOrElse
        (qd.nonlinear_time_of_impact motion_c1 c1.shape motion_c2 c2.shape
          start_time end_time stop_at_penetration)
        (fun _ => linFallback G qd c1 c2 b1 b2 frozen1 frozen2 start_time end_time))
      tfcPack ch1 ch2 c1 c2 is_intersection_test res_toi

/-- Embedding of `TOIEntry::try_from_colliders`.  The head assertion is the
only panic source; the result is `.error .assertFailure` exactly when it
fires. -/
def try_from_colliders {R : Type} [LinearOrderedRing R] {Iso : Type}
    (G : GeomOps R Iso) (qd : QueryDispatcher R Iso)
    (ch1 ch2 : ℕ) (c1 c2 : ColliderData R Iso)
    (b1 b2 : Option (BodyData R Iso)) (frozen1 frozen2 : Option R)
    (start_time end_time smallest_contact_dist : R) :
    Except Abort (Option (TOIEntry R)) :=
  if start_time ≤ end_time then
    .ok (tfcBody G qd ch1 ch2 c1 c2 b1 b2 frozen1 frozen2
      start_time end_time smallest_contact_dist)
  else
    .error .assertFailure

/-! ## Broad phase: data model

Collider handles are embedded as `ℕ` (the spec: opaque stable handles, never
reused while alive).  Coordinates are 2-dimensional; the `f64` precision of
the stored bounds is embedded by the same ordered ring `R`. -/

/-- Modelled from the spec: an axis-aligned box (`sieve_tree::Bounds`,
`parry`'s `Aabb` after `aabb_to_bounds`). -/
structure Bounds (R : Type) where
  minX : R
  minY : R
  maxX : R
  maxY : R
deriving DecidableEq

/-- Modelled from the spec: loosening a box by a margin on every side. -/
def Bounds.loosened {R : Type} [LinearOrderedRing R] (b : Bounds R) (r : R) : Bounds R :=
  ⟨b.minX - r, b.minY - r, b.maxX + r, b.maxY + r⟩

/-- Modelled from the spec: the standard closed-interval box-overlap test on
every axis (spec §4.1, `intersections`). -/
def Bounds.intersects {R : Type} [LinearOrderedRing R] (a b : Bounds R) : Bool :=
  decide (a.minX ≤ b.maxX) && decide (b.minX ≤ a.maxX) &&
  decide (a.minY ≤ b.maxY) && decide (b.minY ≤ a.maxY)

/-- Modelled from the spec: merging (union) of two boxes (`Aabb::merge`). -/
def Bounds.merge {R : Type} [LinearOrderedRing R] (a b : Bounds R) : Bounds R :=
  ⟨min a.minX b.minX, min a.minY b.minY, max a.maxX b.maxX, max a.maxY b.maxY⟩

/-- Modelled from the spec: the spatial index (the external `sieve_tree`
crate).  Only its contract matters to the broad phase: a mutable collection of
(opaque id, stored value, bounds) entries with insert/update/remove and a
bounds-intersection query; rebalancing is internal and unobservable through
that contract, so the model keeps a flat entry list and a fresh-id counter. -/
structure SieveTree (R : Type) where
  entries : List (ℕ × ℕ × Bounds R)
  nextId : ℕ
deriving DecidableEq

/-- Modelled from the spec: `SieveTree::insert_and_balance` — insert an entry,
returning its fresh opaque id (the balancing callback only re-reads sibling
bounds and cannot change the set of stored entries). -/
def SieveTree.insert {R : Type} (t : SieveTree R) (b : Bounds R) (v : ℕ) :
    SieveTree R × ℕ :=
  (⟨t.entries ++ [(t.nextId, v, b)], t.nextId + 1⟩, t.nextId)

/-- Modelled from the spec: `SieveTree::update_and_balance` — relocate the
entry with the given id to new bounds. -/
def SieveTree.update {R : Type} (t : SieveTree R) (id : ℕ) (nb : Bounds R) : SieveTree R :=
  ⟨t.entries.map (fun e => if e.1 = id then (e.1, e.2.1, nb) else e), t.nextId⟩

/-- Modelled from the spec: `SieveTree::remove` — delete the entry with the
given id, returning its stored value. -/
def SieveTree.remove {R : Type} (t : SieveTree R) (id : ℕ) : SieveTree R × Option ℕ :=
  (⟨t.entries.filter (fun e => e.1 ≠ id), t.nextId⟩,
    (t.entries.find? (fun e => e.1 = id)).map (fun e => e.2.1))

/-- Modelled from the spec: `SieveTree::intersections` — all `(id, value)`
entries whose bounds overlap the query bounds. -/
def SieveTree.intersections {R : Type} [LinearOrderedRing R] (t : SieveTree R)
    (q : Bounds R) : List (ℕ × ℕ) :=
  (t.entries.filter (fun e => e.2.2.intersects q)).map (fun e => (e.1, e.2.1))

/-- Embedding of `ColliderMeta`: spatial-index node identity, last-known
bounds, and the live touching set.  The `FxHashSet` is embedded as a
duplicate-free list with set semantics. -/
structure ColliderMeta (R : Type) where
  id : ℕ
  bounds : Bounds R
  touching : List ℕ
deriving DecidableEq

/-- `HashSet::insert`. -/
def slInsert (l : List ℕ) (x : ℕ) : List ℕ :=
  if x ∈ l then l else x :: l

/-- `HashSet::remove`. -/
def slRemove (l : List ℕ) (x : ℕ) : List ℕ :=
  l.filter (fun y => y ≠ x)

/-- Modelled from the spec: the `Coarena<ColliderMeta>` keyed by collider
handle, embedded as an association list with lookup semantics. -/
abbrev MetaMap (R : Type) : Type := List (ℕ × ColliderMeta R)

/-- `Coarena::get`. -/
def metaGet {R : Type} (m : MetaMap R) (h : ℕ) : Option (ColliderMeta R) :=
  (m.find? (fun p => p.1 = h)).map (fun p => p.2)

/-- `Coarena::insert` / writing through `get_mut`: set the entry for `h`. -/
def metaSet {R : Type} (m : MetaMap R) (h : ℕ) (v : ColliderMeta R) : MetaMap R :=
  (m.filter (fun p => p.1 ≠ h)) ++ [(h, v)]

/-- Modelled from the spec: `Coarena::remove` — the metadata entry is
destroyed (subsequent lookups find nothing). -/
def metaRemove {R : Type} (m : MetaMap R) (h : ℕ) : MetaMap R :=
  m.filter (fun p => p.1 ≠ h)

/-- Embedding of the `BroadPhaseSieveTree` state. -/
structure BroadPhaseSieveTree (R : Type) where
  tree : SieveTree R
  meta : MetaMap R
deriving DecidableEq

/-- Embedding of `BroadPhasePairEvent` over `ColliderPair`s, with the pair
inlined as the two collider handles. -/
inductive BroadPhasePairEvent : Type
  | addPair (collider1 collider2 : ℕ)
  | deletePair (collider1 collider2 : ℕ)
deriving DecidableEq

/-- Modelled from the spec: what the external collider/rigid-body stores
supply for one modified collider during the bounds-refresh step — the enabled
and needs-broad-phase-update flags, the collider's own AABB at zero skin
(`compute_collision_aabb(0.0)`), and, when the owning body has a positive soft
CCD prediction distance, the skin-loosened AABB at the predicted pose (the
`dt`-dependent predicted pose is produced by the external rigid-body
store). -/
structure ColliderInfo (R : Type) where
  enabled : Bool
  needsUpdate : Bool
  baseAabb : Bounds R
  softCcdAabb : Option (Bounds R)

/-! ## Broad phase: update -/

/-- Step 1 of `update` (removal): fetch and delete the collider's metadata
(`unwrap` panics — `none` result — when it is missing), then remove the index
entry under the stored id. -/
def removeOne {R : Type} (s : BroadPhaseSieveTree R) (h : ℕ) :
    Option (BroadPhaseSieveTree R) :=
  match metaGet s.meta h with
  | none => none
  | some m => some ⟨(s.tree.remove m.id).1, metaRemove s.meta h⟩

/-- Step 2 of `update` (bounds refresh) for one modified collider: skip it
unless enabled and flagged for refresh; merge the optional soft-CCD predicted
box into its zero-skin box; then insert fresh metadata (empty touching set) or
update the index entry in place. -/
def refreshOne {R : Type} [LinearOrderedRing R] (env : ℕ → ColliderInfo R)
    (s : BroadPhaseSieveTree R) (h : ℕ) : BroadPhaseSieveTree R :=
  let info := env h
  if !info.enabled || !info.needsUpdate then s
  else
    let newBounds := match info.softCcdAabb with
      | some nb => info.baseAabb.merge nb
      | none => info.baseAabb
    match metaGet s.meta h with
    | none =>
        let (t, id) := s.tree.insert newBounds h
        ⟨t, metaSet s.meta h ⟨id, newBounds, []⟩⟩
    | some m =>
        ⟨s.tree.update m.id newBounds, metaSet s.meta h ⟨m.id, newBounds, m.touching⟩⟩

/-- One iteration of the new-pair detection loop of step 3, for a found entry
`(id2, collider2)`: skip self-matches by index-entry identity; insert
`collider2` into the modified collider's live touching set; then — under the
check `!was_touching.contains(&collider1)` exactly as written in the source —
emit an add-pair event and insert the reciprocal entry.  `none` models the
`unwrap` panics on missing metadata. -/
def addStep {R : Type} (c1 : ℕ) (w : List ℕ) (id1 : ℕ)
    (acc : BroadPhaseSieveTree R × List BroadPhasePairEvent) (hit : ℕ × ℕ) :
    Option (BroadPhaseSieveTree R × List BroadPhasePairEvent) :=
  let (s, evs) := acc
  let (id2, c2) := hit
  if id1 = id2 then some (s, evs)
  else
    match metaGet s.meta c1 with
    | none => none
    | some m1 =>
      let s1 : BroadPhaseSieveTree R :=
        ⟨s.tree, metaSet s.meta c1 ⟨m1.id, m1.bounds, slInsert m1.touching c2⟩⟩
      if c1 ∈ w then some (s1, evs)
      else
        match metaGet s1.meta c2 with
        | none => none
        | some m2 =>
          some (⟨s1.tree, metaSet s1.meta c2 ⟨m2.id, m2.bounds, slInsert m2.touching c1⟩⟩,
            evs ++ [BroadPhasePairEvent.addPair c1 c2])

/-- One iteration of the obsolete-pair detection loop of step 3, for a handle
`collider2` of the taken previous touching set: skip it when it was found
again; otherwise emit a delete-pair event and remove the reciprocal entry. -/
def obsStep {R : Type} (c1 : ℕ)
    (acc : BroadPhaseSieveTree R × List BroadPhasePairEvent) (c2 : ℕ) :
    Option (BroadPhaseSieveTree R × List BroadPhasePairEvent) :=
  let (s, evs) := acc
  match metaGet s.meta c1 with
  | none => none
  | some m1 =>
    if c2 ∈ m1.touching then some (s, evs)
    else
      match metaGet s.meta c2 with
      | none => none
      | some m2 =>
        some (⟨s.tree, metaSet s.meta c2 ⟨m2.id, m2.bounds, slRemove m2.touching c1⟩⟩,
          evs ++ [BroadPhasePairEvent.deletePair c1 c2])

/-- Step 3 of `update` (pair diffing) for one modified collider: take and
clear its touching set as `was_touching`, query the index with its bounds
loosened by the prediction distance, run the new-pair loop over every hit and
the obsolete-pair loop over `was_touching`. -/
def pairDiffOne {R : Type} [LinearOrderedRing R] (prediction_distance : R)
    (acc : BroadPhaseSieveTree R × List BroadPhasePairEvent) (c1 : ℕ) :
    Option (BroadPhaseSieveTree R × List BroadPhasePairEvent) :=
  let (s, evs) := acc
  match metaGet s.meta c1 with
  | none => none
  | some m1 =>
    let w := m1.touching
    let id1 := m1.id
    let qb := m1.bounds.loosened prediction_distance
    let s0 : BroadPhaseSieveTree R := ⟨s.tree, metaSet s.meta c1 ⟨m1.id, m1.bounds, []⟩⟩
    let hits := s0.tree.intersections qb
    match hits.foldlM (addStep c1 w id1) (s0, evs) with
    | none => none
    | some acc1 => w.foldlM (obsStep c1) acc1

/-- Embedding of `BroadPhaseSieveTree::update`.  The result is `none` when any
of the source's `unwrap`s panics. -/
def BroadPhaseSieveTree.update {R : Type} [LinearOrderedRing R]
    (s : BroadPhaseSieveTree R) (prediction_distance : R) (env : ℕ → ColliderInfo R)
    (modified removed : List ℕ) :
    Option (BroadPhaseSieveTree R × List BroadPhasePairEvent) :=
  match removed.foldlM removeOne s with
  | none => none
  | some s1 =>
    let s2 := modified.foldl (refreshOne env) s1
    modified.foldlM (pairDiffOne prediction_distance) (s2, [])

/-- The touching set recorded for a handle; a collider with no metadata has an
empty touching set. -/
def touchingOf {R : Type} (s : BroadPhaseSieveTree R) (h : ℕ) : List ℕ :=
  ((metaGet s.meta h).map (fun m => m.touching)).getD []

/-- The symmetry property of the touching relation. -/
def SymState {R : Type} (s : BroadPhaseSieveTree R) : Prop :=
  ∀ a b : ℕ, a ∈ touchingOf s b ↔ b ∈ touchingOf s a

/-- The empty initial broad phase (`BroadPhaseSieveTree::new`). -/
def initBP {R : Type} : BroadPhaseSieveTree R := ⟨⟨[], 0⟩, []⟩

/-- One call of a sequence of `update` calls. -/
structure UpdateCall (R : Type) where
  prediction_distance : R
  env : ℕ → ColliderInfo R
  modified : List ℕ
  removed : List ℕ

/-- Run a sequence of `update` calls from a state, keeping only the final
state (`none` as soon as any call panics). -/
def runUpdates {R : Type} [LinearOrderedRing R] (s : BroadPhaseSieveTree R) :
    List (UpdateCall R) → Option (BroadPhaseSieveTree R)
  | [] => some s
  | c :: cs =>
    match s.update c.prediction_distance c.env c.modified c.removed with
    | none => none
    | some (s1, _) => runUpdates s1 cs

/-! ## Helper lemmas for the estimator -/

/-- When the speed-bound early-out inequality holds, the body of
`try_from_colliders` returns nothing, whatever the dispatcher does. -/
theorem tfcBody_early_out {R : Type} [LinearOrderedRing R] {Iso : Type}
    (G : GeomOps R Iso) (qd : QueryDispatcher R Iso)
    (ch1 ch2 : ℕ) (c1 c2 : ColliderData R Iso)
    (b1 b2 : Option (BodyData R Iso)) (frozen1 frozen2 : Option R)
    (t0 t1 d : R)
    (h : (t1 - t0) * tfcVel12 G b1 b2 frozen1 frozen2 < tfcThickness c1 c2 d) :
    tfcBody G qd ch1 ch2 c1 c2 b1 b2 frozen1 frozen2 t0 t1 d = none := by
  unfold tfcBody
  split
  · rfl
  · simp only [if_pos h]

/-- The early-out makes `try_from_colliders` return `Ok(None)` for every
dispatcher. -/
theorem tfc_early_out {R : Type} [LinearOrderedRing R] {Iso : Type}
    (G : GeomOps R Iso) (qd : QueryDispatcher R Iso)
    (ch1 ch2 : ℕ) (c1 c2 : ColliderData R Iso)
    (b1 b2 : Option (BodyData R Iso)) (frozen1 frozen2 : Option R)
    (t0 t1 d : R)
    (h0 : t0 ≤ t1)
    (h : (t1 - t0) * tfcVel12 G b1 b2 frozen1 frozen2 < tfcThickness c1 c2 d) :
    try_from_colliders G qd ch1 ch2 c1 c2 b1 b2 frozen1 frozen2 t0 t1 d = .ok none := by
  unfold try_from_colliders
  rw [if_pos h0, tfcBody_early_out G qd ch1 ch2 c1 c2 b1 b2 frozen1 frozen2 t0 t1 d h]

/-- The relative-speed bound is nonnegative whenever both maximum CCD sweep
radii are (the norm summand is nonnegative by definition of a norm). -/
theorem tfcVel12_nonneg {R : Type} [LinearOrderedRing R] {Iso : Type}
    (G : GeomOps R Iso) (b1 b2 : Option (BodyData R Iso)) (frozen1 frozen2 : Option R)
    (hd1 : 0 ≤ (b1.map (fun bb => bb.ccd.ccd_max_dist)).getD 0)
    (hd2 : 0 ≤ (b2.map (fun bb => bb.ccd.ccd_max_dist)).getD 0) :
    0 ≤ tfcVel12 G b1 b2 frozen1 frozen2 := by
  unfold tfcVel12
  have hn := G.nrm_nonneg (sub2 (tfcLinvel b2 frozen2) (tfcLinvel b1 frozen1))
  have h1 := mul_nonneg (abs_nonneg (tfcAngvel b1 frozen1)) hd1
  have h2 := mul_nonneg (abs_nonneg (tfcAngvel b2 frozen2)) hd2
  exact add_nonneg (add_nonneg hn h1) h2

/-! ## Concrete fixtures for witnesses (scalar `ℤ`, trivial pose type) -/

/-- A concrete geometric-operations pack over `ℤ` and the one-point pose type,
with the taxicab norm standing in for the external Euclidean norm. -/
def zG : GeomOps ℤ Unit :=
  ⟨(), fun _ _ => (), fun _ => (), fun v => |v.1| + |v.2|,
    fun v => add_nonneg (abs_nonneg v.1) (abs_nonneg v.2),
    fun _ _ _ _ _ => ()⟩

/-- A dispatcher whose queries all report `Unsupported`. -/
def zQdErr : QueryDispatcher ℤ Unit :=
  ⟨fun _ _ _ _ _ _ _ => .error (), fun _ _ _ _ _ => .error ()⟩

/-- A dispatcher whose nonlinear query reports `Unsupported` and whose linear
query finds an impact at time 1. -/
def zQdLin : QueryDispatcher ℤ Unit :=
  ⟨fun _ _ _ _ _ _ _ => .error (), fun _ _ _ _ _ => .ok (some ⟨1⟩)⟩

/-- A solid collider of CCD thickness 1 without an owning body. -/
def zCol : ColliderData ℤ Unit := ⟨.solid, ⟨1, 0⟩, (), none⟩

/-- A solid collider of CCD thickness 0 without an owning body. -/
def zCol0 : ColliderData ℤ Unit := ⟨.solid, ⟨0, 0⟩, (), none⟩

/-- A resting CCD-active body. -/
def zBody : BodyData ℤ Unit := ⟨⟨(), ()⟩, ⟨(0, 0), 0⟩, ⟨(0, 0)⟩, ⟨true, 0⟩⟩

/-! ## C3: the speed-bound early-out -/

/-- C3.  With `thickness` the sum of both shapes' intrinsic CCD thicknesses
plus `max(smallest_contact_dist, 0)` (`tfcThickness`) and the relative speed
bound the norm of the relative linear velocity plus each side's angular speed
scaled by that body's maximum CCD sweep radius, a frozen side's velocities
zeroed (`tfcVel12`), if `(end_time - start_time) * relative_speed_bound <
thickness` then `try_from_colliders` returns nothing.  The dispatcher `qd` is
universally quantified, so neither the nonlinear nor the linear
time-of-impact solver can contribute to (or be needed for) the result: no
solver is invoked. -/
theorem ccd_speed_bound_early_out {R : Type} [LinearOrderedRing R] {Iso : Type}
    (G : GeomOps R Iso) (qd : QueryDispatcher R Iso)
    (ch1 ch2 : ℕ) (c1 c2 : ColliderData R Iso)
    (b1 b2 : Option (BodyData R Iso)) (frozen1 frozen2 : Option R)
    (t0 t1 d : R)
    (h0 : t0 ≤ t1)
    (h : (t1 - t0) * tfcVel12 G b1 b2 frozen1 frozen2 < tfcThickness c1 c2 d) :
    try_from_colliders G qd ch1 ch2 c1 c2 b1 b2 frozen1 frozen2 t0 t1 d = .ok none :=
  tfc_early_out G qd ch1 ch2 c1 c2 b1 b2 frozen1 frozen2 t0 t1 d h0 h

/-- Witness for C3: a resting pair (relative speed bound 0) with total
thickness 2 over the window `[0, 1]` yields no candidate. -/
theorem ccd_speed_bound_early_out_witness :
    try_from_colliders zG zQdErr 1 2 zCol zCol (some zBody) none none none 0 1 0 =
      .ok none :=
  ccd_speed_bound_early_out zG zQdErr 1 2 zCol zCol (some zBody) none none none 0 1 0
    (by decide) (by decide)

/-! ## C4: fixed-pair exclusion -/

/-- C4.  When both body arguments are absent, `try_from_colliders` returns
nothing; the dispatcher is universally quantified, so it is never
consulted. -/
theorem ccd_fixed_pair_exclusion {R : Type} [LinearOrderedRing R] {Iso : Type}
    (G : GeomOps R Iso) (qd : QueryDispatcher R Iso)
    (ch1 ch2 : ℕ) (c1 c2 : ColliderData R Iso)
    (frozen1 frozen2 : Option R) (t0 t1 d : R)
    (h0 : t0 ≤ t1) :
    try_from_colliders G qd ch1 ch2 c1 c2 none none frozen1 frozen2 t0 t1 d = .ok none := by
  unfold try_from_colliders
  rw [if_pos h0]
  unfold tfcBody
  rfl

/-- Witness for C4 at a concrete input. -/
theorem ccd_fixed_pair_exclusion_witness :
    try_from_colliders zG zQdLin 1 2 zCol zCol0 none none none none 0 5 3 = .ok none :=
  ccd_fixed_pair_exclusion zG zQdLin 1 2 zCol zCol0 none none 0 5 3 (by decide)

/-! ## C5: monotonicity of the early-out in the window -/

/-- C5.  If the speed-bound early-out fires for the window `[t0, t1]`, then
for any sub-window `[t0p, t1p]` with the same velocities, shapes and contact
distance it fires as well, and `try_from_colliders` again returns nothing for
every dispatcher.  The two side conditions say that the per-body maximum CCD
sweep radii are nonnegative — they are distances, and per the spec bound how
far a point of the shape can travel under rotation. -/
theorem ccd_early_out_monotone {R : Type} [LinearOrderedRing R] {Iso : Type}
    (G : GeomOps R Iso) (qd : QueryDispatcher R Iso)
    (ch1 ch2 : ℕ) (c1 c2 : ColliderData R Iso)
    (b1 b2 : Option (BodyData R Iso)) (frozen1 frozen2 : Option R)
    (t0 t1 t0p t1p d : R)
    (hd1 : 0 ≤ (b1.map (fun bb => bb.ccd.ccd_max_dist)).getD 0)
    (hd2 : 0 ≤ (b2.map (fun bb => bb.ccd.ccd_max_dist)).getD 0)
    (hs0 : t0 ≤ t0p) (hs1 : t0p ≤ t1p) (hs2 : t1p ≤ t1)
    (h : (t1 - t0) * tfcVel12 G b1 b2 frozen1 frozen2 < tfcThickness c1 c2 d) :
    (t1p - t0p) * tfcVel12 G b1 b2 frozen1 frozen2 < tfcThickness c1 c2 d ∧
    try_from_colliders G qd ch1 ch2 c1 c2 b1 b2 frozen1 frozen2 t0p t1p d = .ok none := by
  have hv : 0 ≤ tfcVel12 G b1 b2 frozen1 frozen2 :=
    tfcVel12_nonneg G b1 b2 frozen1 frozen2 hd1 hd2
  have hle : t1p - t0p ≤ t1 - t0 := sub_le_sub hs2 hs0
  have hmono : (t1p - t0p) * tfcVel12 G b1 b2 frozen1 frozen2 ≤
      (t1 - t0) * tfcVel12 G b1 b2 frozen1 frozen2 :=
    mul_le_mul_of_nonneg_right hle hv
  have hlt := lt_of_le_of_lt hmono h
  exact ⟨hlt, tfc_early_out G qd ch1 ch2 c1 c2 b1 b2 frozen1 frozen2 t0p t1p d hs1 hlt⟩

/-- Witness for C5: shrinking the window `[0, 10]` to `[2, 3]` keeps the
early-out. -/
theorem ccd_early_out_monotone_witness :
    (3 - 2 : ℤ) * tfcVel12 zG (some zBody) none none none < tfcThickness zCol zCol 0 ∧
    try_from_colliders zG zQdErr 1 2 zCol zCol (some zBody) none none none 2 3 0 =
      .ok none :=
  ccd_early_out_monotone zG zQdErr 1 2 zCol zCol (some zBody) none none none 0 10 2 3 0
    (by decide) (by decide) (by decide) (by decide) (by decide) (by decide)

/-! ## C8: the time-window assertion -/

/-- C8.  Calling `try_from_colliders` with `start_time > end_time` makes the
head assertion fire (a fatal precondition violation); under the precondition
`start_time <= end_time` the assertion never fires and the function proceeds
normally, returning `Ok` of its body. -/
theorem ccd_assert_time_window {R : Type} [LinearOrderedRing R] {Iso : Type}
    (G : GeomOps R Iso) (qd : QueryDispatcher R Iso)
    (ch1 ch2 : ℕ) (c1 c2 : ColliderData R Iso)
    (b1 b2 : Option (BodyData R Iso)) (frozen1 frozen2 : Option R)
    (t0 t1 d : R) :
    (t1 < t0 →
      try_from_colliders G qd ch1 ch2 c1 c2 b1 b2 frozen1 frozen2 t0 t1 d =
        .error .assertFailure) ∧
    (t0 ≤ t1 →
      try_from_colliders G qd ch1 ch2 c1 c2 b1 b2 frozen1 frozen2 t0 t1 d =
        .ok (tfcBody G qd ch1 ch2 c1 c2 b1 b2 frozen1 frozen2 t0 t1 d)) := by
  constructor
  · intro hlt
    unfold try_from_colliders
    rw [if_neg (not_le.mpr hlt)]
  · intro hle
    unfold try_from_colliders
    rw [if_pos hle]

/-- Witness for C8: the assertion fires on the window `[1, 0]` and does not
fire on `[0, 1]`. -/
theorem ccd_assert_time_window_witness :
    try_from_colliders zG zQdErr 1 2 zCol zCol (some zBody) none none none 1 0 0 =
      .error .assertFailure ∧
    try_from_colliders zG zQdErr 1 2 zCol zCol (some zBody) none none none 0 1 0 =
      .ok (tfcBody zG zQdErr 1 2 zCol zCol (some zBody) none none none 0 1 0) :=
  ⟨(ccd_assert_time_window zG zQdErr 1 2 zCol zCol (some zBody) none none none 1 0 0).1
      (by decide),
    (ccd_assert_time_window zG zQdErr 1 2 zCol zCol (some zBody) none none none 0 1 0).2
      (by decide)⟩

/-! ## C6: fallback on Unsupported -/

/-- C6.  When the nonlinear time-of-impact query reports `Unsupported` for the
pair (hypothesis `hunsup`), `try_from_colliders` returns `Ok` of the packaged
result of the linear time-of-impact query `linFallback` — which by definition
uses the relative pose of the two collider motions at `start_time`, the
constant relative linear velocity `linvel2 - linvel1` and the duration
`end_time - start_time`.  The result is `.ok` of an `Option`: the
`Unsupported` condition is never surfaced to the caller as a failure. -/
theorem ccd_unsupported_fallback {R : Type} [LinearOrderedRing R] {Iso : Type}
    (G : GeomOps R Iso) (qd : QueryDispatcher R Iso)
    (ch1 ch2 : ℕ) (c1 c2 : ColliderData R Iso)
    (b1 b2 : Option (BodyData R Iso)) (frozen1 frozen2 : Option R)
    (t0 t1 d : R)
    (h0 : t0 ≤ t1)
    (hb : (b1.isNone && b2.isNone) = false)
    (hno : ¬ (t1 - t0) * tfcVel12 G b1 b2 frozen1 frozen2 < tfcThickness c1 c2 d)
    (hunsup : qd.nonlinear_time_of_impact (colliderMotion G c1 b1 frozen1) c1.shape
      (colliderMotion G c2 b2 frozen2) c2.shape t0 t1
      (c1.co_type.is_sensor || c2.co_type.is_sensor) = .error ()) :
    try_from_colliders G qd ch1 ch2 c1 c2 b1 b2 frozen1 frozen2 t0 t1 d =
      .ok (tfcPack ch1 ch2 c1 c2 (c1.co_type.is_sensor || c2.co_type.is_sensor)
        (exceptOk (linFallback G qd c1 c2 b1 b2 frozen1 frozen2 t0 t1))) := by
  unfold try_from_colliders
  rw [if_pos h0]
  unfold tfcBody
  rw [hb]
  simp only [Bool.false_eq_true, if_false]
  rw [if_neg hno, hunsup]
  rfl

/-- Witness for C6: a dispatcher whose nonlinear query is unsupported and
whose linear query hits at time 1. -/
theorem ccd_unsupported_fallback_witness :
    try_from_colliders zG zQdLin 1 2 zCol0 zCol0 (some zBody) none none none 0 1 0 =
      .ok (tfcPack 1 2 zCol0 zCol0
        (zCol0.co_type.is_sensor || zCol0.co_type.is_sensor)
        (exceptOk (linFallback zG zQdLin zCol0 zCol0 (some zBody) none none none 0 1))) :=
  ccd_unsupported_fallback zG zQdLin 1 2 zCol0 zCol0 (some zBody) none none none 0 1 0
    (by decide) (by decide) (by decide) rfl

/-! ## C7: the ordering contract -/

/-- Modelled from the spec: extraction of the maximum element of a list under
the `TOIEntry` total order — the way a maximum-first priority structure (such
as `BinaryHeap::pop`) selects its next element. -/
def heapMax {R : Type} [LinearOrderedRing R] : List (TOIEntry R) → Option (TOIEntry R)
  | [] => none
  | e :: rest =>
      some (rest.foldl (fun m x => if TOIEntry.cmp x m = some Ordering.gt then x else m) e)

/-- Remove the first occurrence of an entry from a list. -/
def removeEntry {R : Type} [LinearOrderedRing R] :
    List (TOIEntry R) → TOIEntry R → List (TOIEntry R)
  | [], _ => []
  | x :: xs, m => if x = m then xs else x :: removeEntry xs m

/-- Repeatedly pop the maximum element: the retrieval order of a maximum-first
priority structure over the entries. -/
def drainHeap {R : Type} [LinearOrderedRing R] :
    ℕ → List (TOIEntry R) → List (TOIEntry R)
  | 0, _ => []
  | n + 1, l =>
      match heapMax l with
      | none => []
      | some m => m :: drainHeap n (removeEntry l m)

/-- A candidate with impact time 0.7. -/
def ent07 : TOIEntry ℚ := ⟨some (7/10), 1, none, 2, none, false, 0⟩

/-- A candidate with impact time 0.1. -/
def ent01 : TOIEntry ℚ := ⟨some (1/10), 3, none, 4, none, false, 0⟩

/-- A candidate with impact time 0.4. -/
def ent04 : TOIEntry ℚ := ⟨some (4/10), 5, none, 6, none, false, 0⟩

/-- C7.  The comparison on impact candidates orders them by negated impact
time: for non-NaN times, `x` compares greater than `y` exactly when
`x.toi < y.toi`; consequently a maximum-first priority structure over
candidates with times `[0.7, 0.1, 0.4]` yields them in ascending time
`0.1, 0.4, 0.7`. -/
theorem toientry_order_contract :
    (∀ (R : Type) [inst : LinearOrderedRing R] (x y : TOIEntry R) (qx qy : R),
      x.toi = some qx → y.toi = some qy →
      (TOIEntry.cmp x y = some Ordering.gt ↔ qx < qy)) ∧
    drainHeap 3 [ent07, ent01, ent04] = [ent01, ent04, ent07] := by
  constructor
  · intro R inst x y qx qy hx hy
    unfold TOIEntry.cmp TOIEntry.pcmp
    rw [hx, hy]
    simp only [fnegF, fpcmpF, Option.some.injEq]
    unfold cmpQ
    split_ifs with h1 h2
    · constructor
      · intro hh
        exact absurd hh (by decide)
      · intro hh
        exact absurd (neg_lt_neg hh) (asymm h1)
    · have hq : qx = qy := neg_inj.mp h2
      constructor
      · intro hh
        exact absurd hh (by decide)
      · intro hh
        rw [hq] at hh
        exact absurd hh (lt_irrefl qy)
    · constructor
      · intro _
        have h3 : -qy < -qx := lt_of_le_of_ne (not_lt.mp h1) (fun e => h2 e.symm)
        exact neg_lt_neg_iff.mp h3
      · intro _
        rfl
  · have e0107 : TOIEntry.cmp ent01 ent07 = some Ordering.gt := by
      norm_num [TOIEntry.cmp, TOIEntry.pcmp, fpcmpF, fnegF, cmpQ, ent01, ent07]
    have e0401 : TOIEntry.cmp ent04 ent01 = some Ordering.lt := by
      norm_num [TOIEntry.cmp, TOIEntry.pcmp, fpcmpF, fnegF, cmpQ, ent04, ent01]
    have e0407 : TOIEntry.cmp ent04 ent07 = some Ordering.gt := by
      norm_num [TOIEntry.cmp, TOIEntry.pcmp, fpcmpF, fnegF, cmpQ, ent04, ent07]
    have hne0401 : ¬ TOIEntry.cmp ent04 ent01 = some Ordering.gt := by
      rw [e0401]
      decide
    have ne0701 : ent07 ≠ ent01 := fun hh => absurd (congrArg TOIEntry.c1 hh) (by decide)
    have ne0704 : ent07 ≠ ent04 := fun hh => absurd (congrArg TOIEntry.c1 hh) (by decide)
    have m1 : heapMax [ent07, ent01, ent04] = some ent01 := by
      unfold heapMax
      simp only [List.foldl]
      rw [if_pos e0107, if_neg hne0401]
    have r1 : removeEntry [ent07, ent01, ent04] ent01 = [ent07, ent04] := by
      simp only [removeEntry, if_true]
      rw [if_neg ne0701]
    have m2 : heapMax [ent07, ent04] = some ent04 := by
      unfold heapMax
      simp only [List.foldl]
      rw [if_pos e0407]
    have r2 : removeEntry [ent07, ent04] ent04 = [ent07] := by
      simp only [removeEntry, if_true]
      rw [if_neg ne0704]
    have m3 : heapMax [ent07] = some ent07 := rfl
    have r3 : removeEntry [ent07] ent07 = [] := by
      simp only [removeEntry, if_true]
    have d3 : drainHeap 3 [ent07, ent01, ent04] =
        (match heapMax [ent07, ent01, ent04] with
         | none => []
         | some m => m :: drainHeap 2 (removeEntry [ent07, ent01, ent04] m)) := rfl
    have d2 : drainHeap 2 [ent07, ent04] =
        (match heapMax [ent07, ent04] with
         | none => []
         | some m => m :: drainHeap 1 (removeEntry [ent07, ent04] m)) := rfl
    have d1 : drainHeap 1 [ent07] =
        (match heapMax [ent07] with
         | none => []
         | some m => m :: drainHeap 0 (removeEntry [ent07] m)) := rfl
    rw [d3, m1]
    simp only [r1, d2, m2, r2, d1, m3, r3]
    rfl

/-- A candidate with integer impact time 1. -/
def entZa : TOIEntry ℤ := ⟨some 1, 0, none, 0, none, false, 0⟩

/-- A candidate with integer impact time 2. -/
def entZb : TOIEntry ℤ := ⟨some 2, 0, none, 0, none, false, 0⟩

/-- Witness for C7: the earlier of two concrete candidates compares
greater. -/
theorem toientry_order_contract_witness :
    TOIEntry.cmp entZa entZb = some Ordering.gt :=
  (toientry_order_contract.1 ℤ entZa entZb 1 2 rfl rfl).mpr (by decide)

/-! ## C9: the total order panics exactly on NaN -/

/-- C9.  `TOIEntry::cmp` unwraps the partial float comparison, so it panics —
result `none` in this embedding — precisely when either candidate's impact
time is NaN; on two non-NaN times it always produces an ordering. -/
theorem toientry_cmp_nan_iff :
    ∀ (R : Type) [inst : LinearOrderedRing R] (e1 e2 : TOIEntry R),
      TOIEntry.cmp e1 e2 = none ↔ e1.toi = none ∨ e2.toi = none := by
  intro R inst e1 e2
  unfold TOIEntry.cmp TOIEntry.pcmp
  rcases h1 : e1.toi with _ | q1 <;> rcases h2 : e2.toi with _ | q2 <;>
    simp [fnegF, fpcmpF]

/-! ## C10: equality depends only on the impact time -/

/-- C10.  Equality of impact candidates compares only the `toi` fields: it
factors through `feqF` on the times, and two candidates with the same (non-NaN)
time compare equal whatever their collider handles, body handles,
intersection-only flags, and sequencing counters are. -/
theorem toientry_eq_depends_only_on_toi :
    (∀ (R : Type) [inst : LinearOrderedRing R] (e1 e2 : TOIEntry R),
      TOIEntry.beq e1 e2 = feqF e1.toi e2.toi) ∧
    (∀ (R : Type) [inst : LinearOrderedRing R] (q : R)
      (a1 : ℕ) (ob1 : Option ℕ) (a2 : ℕ) (ob2 : Option ℕ) (f1 : Bool) (ts1 : ℕ)
      (a3 : ℕ) (ob3 : Option ℕ) (a4 : ℕ) (ob4 : Option ℕ) (f2 : Bool) (ts2 : ℕ),
      TOIEntry.beq ⟨some q, a1, ob1, a2, ob2, f1, ts1⟩ ⟨some q, a3, ob3, a4, ob4, f2, ts2⟩ =
        true) := by
  constructor
  · intro R inst e1 e2
    rfl
  · intro R inst q a1 ob1 a2 ob2 f1 ts1 a3 ob3 a4 ob4 f2 ts2
    simp [TOIEntry.beq, feqF]

/-! ## Concrete broad-phase fixtures -/

/-- A unit-ish box for collider 1. -/
def bndA : Bounds ℤ := ⟨0, 0, 2, 2⟩

/-- An overlapping box for collider 2. -/
def bndB : Bounds ℤ := ⟨1, 0, 3, 2⟩

/-- An environment with two enabled, refresh-flagged colliders whose boxes
overlap. -/
def envZ : ℕ → ColliderInfo ℤ := fun h =>
  if h = 1 then ⟨true, true, bndA, none⟩ else ⟨true, true, bndB, none⟩

/-- The broad-phase state reached from empty by one `update` with
`modified = [1, 2]` under `envZ`. -/
def bpS1 : BroadPhaseSieveTree ℤ :=
  ⟨⟨[(0, 1, bndA), (1, 2, bndB)], 2⟩,
    [(2, ⟨1, bndB, [1]⟩), (1, ⟨0, bndA, [2]⟩)]⟩

/-! ## C1: the add-pair emission check -/

/-- C1 evaluated at a failing input.  After a first `update` establishes the
pair (collider 2 is recorded in collider 1's touching set — second conjunct),
a second `update` with `modified = [1]` and the colliders still overlapping
emits `AddPair(1, 2)` again (first conjunct), because the source tests
`!was_touching.contains(&collider1)` — the first collider's own handle against
its own previous set, which never holds it — instead of testing the found
collider.  The claimed behaviour (emit if and only if the found collider was
not already recorded) would emit nothing here.  The first update's event list
(third conjunct) already shows the same defect: `AddPair(2, 1)` is emitted
while collider 1 is in collider 2's previous touching set. -/
theorem bp_addpair_self_check_bug :
    ((((initBP (R := ℤ)).update 0 envZ [1, 2] []).bind
        (fun p => p.1.update 0 envZ [1] [])).map (fun p => p.2) =
      some [BroadPhasePairEvent.addPair 1 2]) ∧
    (((initBP (R := ℤ)).update 0 envZ [1, 2] []).map (fun p => touchingOf p.1 1) =
      some [2]) ∧
    (((initBP (R := ℤ)).update 0 envZ [1, 2] []).map (fun p => p.2) =
      some [BroadPhasePairEvent.addPair 1 2, BroadPhasePairEvent.addPair 2 1]) := by
  refine ⟨by decide, by decide, by decide⟩

/-! ## C2: symmetry of the touching relation -/

/-- The broad-phase state reached from empty by one `update` with
`modified = [1, 2]` followed by one `update` with `removed = [1]` under
`envZ`. -/
def bpS2 : BroadPhaseSieveTree ℤ := ⟨⟨[(1, 2, bndB)], 2⟩, [(2, ⟨1, bndB, [1]⟩)]⟩

/-- C2 counterexample.  A first `update` records the overlapping pair `(1, 2)`
in both touching sets; a second `update` that removes collider 1 deletes
collider 1's metadata but leaves collider 1 in collider 2's touching set, so
the resulting state is not symmetric (collider 1 has no metadata, hence an
empty touching set, while collider 2's still contains it). -/
theorem bp_symmetry_counterexample :
    runUpdates (initBP (R := ℤ)) [⟨0, envZ, [1, 2], []⟩, ⟨0, envZ, [], [1]⟩] =
      some bpS2 ∧ ¬ SymState bpS2 :=
  ⟨by decide, fun hsym => absurd ((hsym 1 2).mp (by decide)) (by decide)⟩

/-! ## Lemmas on the metadata map -/

/-- The touching set recorded in a metadata map (empty when no entry). -/
def touchingM {R : Type} (m : MetaMap R) (h : ℕ) : List ℕ :=
  ((metaGet m h).map (fun mm => mm.touching)).getD []

/-- The index identity and bounds recorded in a metadata map. -/
def metaSig {R : Type} (m : MetaMap R) (h : ℕ) : Option (ℕ × Bounds R) :=
  (metaGet m h).map (fun mm => (mm.id, mm.bounds))

theorem touchingOf_eq_touchingM {R : Type} (s : BroadPhaseSieveTree R) (h : ℕ) :
    touchingOf s h = touchingM s.meta h := rfl

theorem find?_filter_ne_none {R : Type} (m : MetaMap R) (h : ℕ) :
    (m.filter (fun p => p.1 ≠ h)).find? (fun p => p.1 = h) = none := by
  rw [List.find?_eq_none]
  intro x hx
  have hx2 := (List.mem_filter.mp hx).2
  simp at hx2 ⊢
  exact hx2

theorem find?_filter_of_ne {R : Type} (m : MetaMap R) (h h' : ℕ) (hne : h' ≠ h) :
    (m.filter (fun p => p.1 ≠ h)).find? (fun p => p.1 = h') =
      m.find? (fun p => p.1 = h') := by
  induction m with
  | nil => rfl
  | cons p t ih =>
      by_cases hp : p.1 = h
      · have hph : ¬ p.1 = h' := fun e => hne (e.symm.trans hp)
        rw [List.filter_cons_of_neg (by simp [hp]), ih,
          List.find?_cons_of_neg _ (by simp [hph])]
      · by_cases hph : p.1 = h'
        · rw [List.filter_cons_of_pos (by simp [hp]),
            List.find?_cons_of_pos _ (by simp [hph]),
            List.find?_cons_of_pos _ (by simp [hph])]
        · rw [List.filter_cons_of_pos (by simp [hp]),
            List.find?_cons_of_neg _ (by simp [hph]), ih,
            List.find?_cons_of_neg _ (by simp [hph])]

theorem metaGet_metaSet {R : Type} (m : MetaMap R) (h h' : ℕ) (v : ColliderMeta R) :
    metaGet (metaSet m h v) h' = if h' = h then some v else metaGet m h' := by
  unfold metaGet metaSet
  rw [List.find?_append]
  by_cases hh : h' = h
  · subst hh
    rw [find?_filter_ne_none]
    simp [List.find?]
  · rw [find?_filter_of_ne m h h' hh]
    have hne2 : ¬ (h = h') := fun e => hh e.symm
    have h2 : List.find? (fun p => decide (p.1 = h')) [(h, v)] = none := by
      simp [List.find?, hne2]
    rw [h2]
    simp [hh]

theorem touchingM_metaSet {R : Type} (m : MetaMap R) (h h' : ℕ) (v : ColliderMeta R) :
    touchingM (metaSet m h v) h' = if h' = h then v.touching else touchingM m h' := by
  unfold touchingM
  rw [metaGet_metaSet]
  by_cases hh : h' = h <;> simp [hh]

theorem metaSig_metaSet {R : Type} (m : MetaMap R) (h h' : ℕ) (v : ColliderMeta R) :
    metaSig (metaSet m h v) h' =
      if h' = h then some (v.id, v.bounds) else metaSig m h' := by
  unfold metaSig
  rw [metaGet_metaSet]
  by_cases hh : h' = h <;> simp [hh]

theorem mem_slInsert (l : List ℕ) (a x : ℕ) : x ∈ slInsert l a ↔ x ∈ l ∨ x = a := by
  unfold slInsert
  by_cases h : a ∈ l
  · rw [if_pos h]
    exact ⟨Or.inl, fun hh => hh.elim id (fun e => e ▸ h)⟩
  · rw [if_neg h, List.mem_cons]
    exact Or.comm

theorem mem_slRemove (l : List ℕ) (a x : ℕ) : x ∈ slRemove l a ↔ x ∈ l ∧ x ≠ a := by
  unfold slRemove
  simp [List.mem_filter]

/-- A handle found by the overlap query under an id different from the
querying collider's own index-entry id. -/
def hitFound (hits : List (ℕ × ℕ)) (id1 x : ℕ) : Prop :=
  ∃ i, (i, x) ∈ hits ∧ i ≠ id1

theorem hitFound_nil (id1 x : ℕ) : ¬ hitFound [] id1 x := by
  rintro ⟨i, hi, _⟩
  exact absurd hi (List.not_mem_nil _)

theorem hitFound_cons_skip (i c2 id1 : ℕ) (rest : List (ℕ × ℕ)) (hi : i = id1) (x : ℕ) :
    hitFound ((i, c2) :: rest) id1 x ↔ hitFound rest id1 x := by
  constructor
  · rintro ⟨j, hj, hne⟩
    rcases List.mem_cons.mp hj with he | hm
    · exact absurd (congrArg Prod.fst he) (by simpa [hi] using hne)
    · exact ⟨j, hm, hne⟩
  · rintro ⟨j, hj, hne⟩
    exact ⟨j, List.mem_cons_of_mem _ hj, hne⟩

theorem hitFound_cons_take (i c2 id1 : ℕ) (rest : List (ℕ × ℕ)) (hi : i ≠ id1) (x : ℕ) :
    hitFound ((i, c2) :: rest) id1 x ↔ x = c2 ∨ hitFound rest id1 x := by
  constructor
  · rintro ⟨j, hj, hne⟩
    rcases List.mem_cons.mp hj with he | hm
    · exact Or.inl (congrArg Prod.snd he)
    · exact Or.inr ⟨j, hm, hne⟩
  · rintro (rfl | ⟨j, hj, hne⟩)
    · exact ⟨i, List.mem_cons_self _ _, hi⟩
    · exact ⟨j, List.mem_cons_of_mem _ hj, hne⟩

/-- Specification of the new-pair detection fold: the tree is untouched, ids
and bounds are untouched, and the touching relation gains exactly the edges
between the modified collider and every handle found under a foreign index
id.  Requires that the modified collider is not in the taken previous set
(always true in context by the no-self-touching invariant) and that any hit
carrying the modified collider's own handle carries its own id (from
tree-metadata coherence). -/
theorem addFold_spec {R : Type} (c1 id1 : ℕ) (w : List ℕ) (hw : c1 ∉ w) :
    ∀ (hits : List (ℕ × ℕ)),
      (∀ p ∈ hits, p.2 = c1 → p.1 = id1) →
      ∀ (s : BroadPhaseSieveTree R) (evs : List BroadPhasePairEvent)
        (out : BroadPhaseSieveTree R × List BroadPhasePairEvent),
        List.foldlM (addStep c1 w id1) (s, evs) hits = some out →
        out.1.tree = s.tree ∧
        (∀ x, metaSig out.1.meta x = metaSig s.meta x) ∧
        (∀ x y, x ∈ touchingM out.1.meta y ↔
          (x ∈ touchingM s.meta y ∨ (y = c1 ∧ hitFound hits id1 x) ∨
            (x = c1 ∧ hitFound hits id1 y))) := by
  intro hits
  induction hits with
  | nil =>
      intro _ s evs out hfold
      simp only [List.foldlM] at hfold
      have hout : out = (s, evs) := by
        cases hfold
        rfl
      subst hout
      refine ⟨rfl, fun x => rfl, fun x y => ?_⟩
      simp [hitFound_nil]
  | cons p rest ih =>
      intro hself s evs out hfold
      obtain ⟨i, c2⟩ := p
      simp only [List.foldlM] at hfold
      by_cases hi : id1 = i
      · rw [show addStep c1 w id1 (s, evs) (i, c2) = some (s, evs) from by
          simp [addStep, hi]] at hfold
        simp only [Option.bind_eq_bind, Option.some_bind] at hfold
        obtain ⟨ht, hsig, hmem⟩ :=
          ih (fun p hp => hself p (List.mem_cons_of_mem _ hp)) s evs out hfold
        refine ⟨ht, hsig, fun x y => ?_⟩
        rw [hmem x y, hitFound_cons_skip i c2 id1 rest hi.symm x,
          hitFound_cons_skip i c2 id1 rest hi.symm y]
      · have hc2 : c2 ≠ c1 := fun e => hi (hself (i, c2) (List.mem_cons_self _ _) e).symm
        rcases hm1 : metaGet s.meta c1 with _ | m1
        · rw [show addStep c1 w id1 (s, evs) (i, c2) = none from by
            simp [addStep, hi, hm1]] at hfold
          simp at hfold
        · rcases hm2 : metaGet s.meta c2 with _ | m2
          · rw [show addStep c1 w id1 (s, evs) (i, c2) = none from by
              simp [addStep, hi, hm1, hw, metaGet_metaSet, hc2, hm2]] at hfold
            simp at hfold
          · set v1 : ColliderMeta R := ⟨m1.id, m1.bounds, slInsert m1.touching c2⟩ with hv1
            set s1meta := metaSet s.meta c1 v1 with hs1
            set v2 : ColliderMeta R := ⟨m2.id, m2.bounds, slInsert m2.touching c1⟩ with hv2
            have hstep : addStep c1 w id1 (s, evs) (i, c2) =
                some (⟨s.tree, metaSet s1meta c2 v2⟩,
                  evs ++ [BroadPhasePairEvent.addPair c1 c2]) := by
              simp [addStep, hi, hm1, hw, metaGet_metaSet, hc2, hm2, hs1, hv1, hv2]
            rw [hstep] at hfold
            simp only [Option.bind_eq_bind, Option.some_bind] at hfold
            obtain ⟨ht, hsig, hmem⟩ :=
              ih (fun p hp => hself p (List.mem_cons_of_mem _ hp))
                ⟨s.tree, metaSet s1meta c2 v2⟩
                (evs ++ [BroadPhasePairEvent.addPair c1 c2]) out hfold
            have hsig2 : ∀ x, metaSig (metaSet s1meta c2 v2) x = metaSig s.meta x := by
              intro x
              rw [metaSig_metaSet, hs1, metaSig_metaSet]
              by_cases hx2 : x = c2
              · subst hx2
                rw [if_pos rfl]
                unfold metaSig
                rw [hm2]
                rfl
              · rw [if_neg hx2]
                by_cases hx1 : x = c1
                · subst hx1
                  rw [if_pos rfl]
                  unfold metaSig
                  rw [hm1]
                  rfl
                · rw [if_neg hx1]
            have hmem2 : ∀ x z, x ∈ touchingM (metaSet s1meta c2 v2) z ↔
                (x ∈ touchingM s.meta z ∨ (z = c1 ∧ x = c2) ∨ (z = c2 ∧ x = c1)) := by
              intro x z
              rw [touchingM_metaSet, hs1]
              by_cases hz2 : z = c2
              · rw [hz2, if_pos rfl, hv2]
                have hm2t : m2.touching = touchingM s.meta c2 := by
                  unfold touchingM
                  rw [hm2]
                  rfl
                rw [show (⟨m2.id, m2.bounds, slInsert m2.touching c1⟩ : ColliderMeta R).touching
                  = slInsert m2.touching c1 from rfl, mem_slInsert, hm2t]
                constructor
                · rintro (hh | rfl)
                  · exact Or.inl hh
                  · exact Or.inr (Or.inr ⟨rfl, rfl⟩)
                · rintro (hh | ⟨he, rfl⟩ | ⟨_, rfl⟩)
                  · exact Or.inl hh
                  · exact absurd he hc2
                  · exact Or.inr rfl
              · rw [if_neg hz2, touchingM_metaSet]
                by_cases hz1 : z = c1
                · rw [hz1, if_pos rfl, hv1]
                  have hm1t : m1.touching = touchingM s.meta c1 := by
                    unfold touchingM
                    rw [hm1]
                    rfl
                  rw [show (⟨m1.id, m1.bounds, slInsert m1.touching c2⟩ : ColliderMeta R).touching
                    = slInsert m1.touching c2 from rfl, mem_slInsert, hm1t]
                  constructor
                  · rintro (hh | rfl)
                    · exact Or.inl hh
                    · exact Or.inr (Or.inl ⟨rfl, rfl⟩)
                  · rintro (hh | ⟨_, rfl⟩ | ⟨he, rfl⟩)
                    · exact Or.inl hh
                    · exact Or.inr rfl
                    · exact absurd he.symm hc2
                · rw [if_neg hz1]
                  constructor
                  · exact fun hh => Or.inl hh
                  · rintro (hh | ⟨rfl, rfl⟩ | ⟨rfl, rfl⟩)
                    · exact hh
                    · exact absurd rfl hz1
                    · exact absurd rfl hz2
            refine ⟨ht, fun x => (hsig x).trans (hsig2 x), fun x y => ?_⟩
            rw [hmem x y, hmem2 x y, hitFound_cons_take i c2 id1 rest (Ne.symm hi) x,
              hitFound_cons_take i c2 id1 rest (Ne.symm hi) y]
            tauto

/-- Specification of the obsolete-pair detection fold: the tree is untouched,
ids and bounds are untouched, and the touching relation loses exactly the
reciprocal edges from members of the taken previous set that the overlap
query did not find again. -/
theorem obsFold_spec {R : Type} (c1 : ℕ) :
    ∀ (w : List ℕ), c1 ∉ w →
      ∀ (s : BroadPhaseSieveTree R) (evs : List BroadPhasePairEvent)
        (out : BroadPhaseSieveTree R × List BroadPhasePairEvent),
        List.foldlM (obsStep c1) (s, evs) w = some out →
        out.1.tree = s.tree ∧
        (∀ x, metaSig out.1.meta x = metaSig s.meta x) ∧
        (∀ x y, x ∈ touchingM out.1.meta y ↔
          (x ∈ touchingM s.meta y ∧
            ¬(x = c1 ∧ y ∈ w ∧ y ∉ touchingM s.meta c1))) := by
  intro w
  induction w with
  | nil =>
      intro _ s evs out hfold
      simp only [List.foldlM] at hfold
      have hout : out = (s, evs) := by
        cases hfold
        rfl
      subst hout
      refine ⟨rfl, fun x => rfl, fun x y => ?_⟩
      simp
  | cons y0 rest ih =>
      intro hw s evs out hfold
      have hy0 : y0 ≠ c1 := fun e => hw (e ▸ List.mem_cons_self _ _)
      have hwr : c1 ∉ rest := fun e => hw (List.mem_cons_of_mem _ e)
      simp only [List.foldlM] at hfold
      rcases hm1 : metaGet s.meta c1 with _ | m1
      · rw [show obsStep c1 (s, evs) y0 = none from by simp [obsStep, hm1]] at hfold
        simp at hfold
      · have hTm : touchingM s.meta c1 = m1.touching := by
          unfold touchingM
          rw [hm1]
          rfl
        by_cases hin : y0 ∈ m1.touching
        · rw [show obsStep c1 (s, evs) y0 = some (s, evs) from by
            simp [obsStep, hm1, hin]] at hfold
          simp only [Option.bind_eq_bind, Option.some_bind] at hfold
          obtain ⟨ht, hsig, hmem⟩ := ih hwr s evs out hfold
          have hin2 : y0 ∈ touchingM s.meta c1 := by
            rw [hTm]
            exact hin
          refine ⟨ht, hsig, fun x y => ?_⟩
          rw [hmem x y, List.mem_cons]
          constructor
          · rintro ⟨hxy, hcond⟩
            refine ⟨hxy, ?_⟩
            rintro ⟨hxc, (rfl | hym), hyT⟩
            · exact hyT hin2
            · exact hcond ⟨hxc, hym, hyT⟩
          · rintro ⟨hxy, hcond⟩
            refine ⟨hxy, ?_⟩
            rintro ⟨hxc, hym, hyT⟩
            exact hcond ⟨hxc, Or.inr hym, hyT⟩
        · rcases hm2 : metaGet s.meta y0 with _ | m2
          · rw [show obsStep c1 (s, evs) y0 = none from by
              simp [obsStep, hm1, hin, hm2]] at hfold
            simp at hfold
          · set v : ColliderMeta R := ⟨m2.id, m2.bounds, slRemove m2.touching c1⟩ with hv
            have hstep : obsStep c1 (s, evs) y0 =
                some (⟨s.tree, metaSet s.meta y0 v⟩,
                  evs ++ [BroadPhasePairEvent.deletePair c1 y0]) := by
              simp [obsStep, hm1, hin, hm2, hv]
            rw [hstep] at hfold
            simp only [Option.bind_eq_bind, Option.some_bind] at hfold
            obtain ⟨ht, hsig, hmem⟩ :=
              ih hwr ⟨s.tree, metaSet s.meta y0 v⟩
                (evs ++ [BroadPhasePairEvent.deletePair c1 y0]) out hfold
            have hm2t : m2.touching = touchingM s.meta y0 := by
              unfold touchingM
              rw [hm2]
              rfl
            have hsig2 : ∀ x, metaSig (metaSet s.meta y0 v) x = metaSig s.meta x := by
              intro x
              rw [metaSig_metaSet]
              by_cases hx : x = y0
              · subst hx
                rw [if_pos rfl]
                unfold metaSig
                rw [hm2]
                rfl
              · rw [if_neg hx]
            have hmem2 : ∀ x z, x ∈ touchingM (metaSet s.meta y0 v) z ↔
                (x ∈ touchingM s.meta z ∧ ¬(z = y0 ∧ x = c1)) := by
              intro x z
              rw [touchingM_metaSet]
              by_cases hz : z = y0
              · rw [hz, if_pos rfl, hv]
                rw [show (⟨m2.id, m2.bounds, slRemove m2.touching c1⟩ :
                    ColliderMeta R).touching = slRemove m2.touching c1 from rfl,
                  mem_slRemove, hm2t]
                constructor
                · rintro ⟨hh, hne⟩
                  exact ⟨hh, fun hc => hne hc.2⟩
                · rintro ⟨hh, hne⟩
                  exact ⟨hh, fun hc => hne ⟨rfl, hc⟩⟩
              · rw [if_neg hz]
                constructor
                · exact fun hh => ⟨hh, fun hc => hz hc.1⟩
                · exact fun hh => hh.1
            have hT : ∀ x, x ∈ touchingM (metaSet s.meta y0 v) c1 ↔
                x ∈ touchingM s.meta c1 := by
              intro x
              rw [hmem2 x c1]
              constructor
              · exact fun hh => hh.1
              · exact fun hh => ⟨hh, fun hc => hy0 hc.1.symm⟩
            have hnin2 : y0 ∉ touchingM s.meta c1 := by
              rw [hTm]
              exact hin
            refine ⟨ht, fun x => (hsig x).trans (hsig2 x), fun x y => ?_⟩
            rw [hmem x y, hmem2 x y, hT y, List.mem_cons]
            constructor
            · rintro ⟨⟨hxy, hc1⟩, hcond⟩
              refine ⟨hxy, ?_⟩
              rintro ⟨hxc, (rfl | hym), hyT⟩
              · exact hc1 ⟨rfl, hxc⟩
              · exact hcond ⟨hxc, hym, hyT⟩
            · rintro ⟨hxy, hcond⟩
              refine ⟨⟨hxy, ?_⟩, ?_⟩
              · rintro ⟨rfl, hxc⟩
                exact hcond ⟨hxc, Or.inl rfl, hnin2⟩
              · rintro ⟨hxc, hym, hyT⟩
                exact hcond ⟨hxc, Or.inr hym, hyT⟩

/-! ## The broad-phase invariant -/

/-- Every index entry's stored handle has metadata carrying that entry's
id. -/
def TreeMetaCoh {R : Type} (s : BroadPhaseSieveTree R) : Prop :=
  ∀ e ∈ s.tree.entries, ∃ m, metaGet s.meta e.2.1 = some m ∧ m.id = e.1

/-- No collider ever records itself as touching. -/
def NoSelf {R : Type} (s : BroadPhaseSieveTree R) : Prop :=
  ∀ h : ℕ, h ∉ touchingM s.meta h

/-- The inductive invariant of the broad phase: tree-metadata coherence, no
self-touching, and symmetry of the touching relation. -/
def BPInv {R : Type} (s : BroadPhaseSieveTree R) : Prop :=
  TreeMetaCoh s ∧ NoSelf s ∧ SymState s

theorem symState_iff_touchingM {R : Type} (s : BroadPhaseSieveTree R) :
    SymState s ↔ ∀ a b : ℕ, a ∈ touchingM s.meta b ↔ b ∈ touchingM s.meta a :=
  Iff.rfl

/-- Coherence transfers along equal trees and equal id/bounds signatures. -/
theorem treeMetaCoh_of_sig {R : Type} (s sp : BroadPhaseSieveTree R)
    (ht : sp.tree = s.tree) (hsig : ∀ x, metaSig sp.meta x = metaSig s.meta x)
    (hcoh : TreeMetaCoh s) : TreeMetaCoh sp := by
  intro e he
  rw [ht] at he
  obtain ⟨m, hm, hid⟩ := hcoh e he
  have h1 : metaSig sp.meta e.2.1 = some (m.id, m.bounds) := by
    rw [hsig]
    unfold metaSig
    rw [hm]
    rfl
  unfold metaSig at h1
  rcases hg : metaGet sp.meta e.2.1 with _ | m'
  · rw [hg] at h1
    simp at h1
  · rw [hg] at h1
    simp at h1
    exact ⟨m', rfl, by rw [h1.1, hid]⟩

/-- Membership of an overlap-query result comes from an index entry with the
same id and stored handle. -/
theorem mem_intersections {R : Type} [LinearOrderedRing R] (t : SieveTree R)
    (q : Bounds R) (p : ℕ × ℕ) (hp : p ∈ t.intersections q) :
    ∃ e ∈ t.entries, e.1 = p.1 ∧ e.2.1 = p.2 := by
  unfold SieveTree.intersections at hp
  rcases List.mem_map.mp hp with ⟨e, he, hpe⟩
  exact ⟨e, (List.mem_filter.mp he).1, by rw [← hpe], by rw [← hpe]⟩

set_option maxHeartbeats 1000000 in
theorem pairDiffOne_inv {R : Type} [LinearOrderedRing R] (pred : R)
    (s : BroadPhaseSieveTree R) (evs : List BroadPhasePairEvent) (c1 : ℕ)
    (out : BroadPhaseSieveTree R × List BroadPhasePairEvent)
    (hinv : BPInv s)
    (h : pairDiffOne pred (s, evs) c1 = some out) :
    BPInv out.1 ∧ out.1.tree = s.tree ∧
      (∀ x, metaSig out.1.meta x = metaSig s.meta x) := by
  obtain ⟨hcoh, hns, hsym⟩ := hinv
  unfold pairDiffOne at h
  simp only [] at h
  rcases hm1 : metaGet s.meta c1 with _ | m1
  · rw [hm1] at h
    simp at h
  · rw [hm1] at h
    simp only [] at h
    -- name the pieces
    set s0 : BroadPhaseSieveTree R := ⟨s.tree, metaSet s.meta c1 ⟨m1.id, m1.bounds, []⟩⟩
      with hs0
    set hits : List (ℕ × ℕ) :=
      SieveTree.intersections
        (⟨s.tree, metaSet s.meta c1 ⟨m1.id, m1.bounds, []⟩⟩ : BroadPhaseSieveTree R).tree
        (m1.bounds.loosened pred) with hhits
    rcases hadd : List.foldlM (addStep c1 m1.touching m1.id) (s0, evs) hits with _ | acc1
    · rw [hadd] at h
      simp at h
    · rw [hadd] at h
      simp only [] at h
      have hsym2 : ∀ a b : ℕ, a ∈ touchingM s.meta b ↔ b ∈ touchingM s.meta a := hsym
      have hw : c1 ∉ m1.touching := by
        have hz := hns c1
        unfold touchingM at hz
        rw [hm1] at hz
        simpa using hz
      have hself : ∀ p ∈ hits, p.2 = c1 → p.1 = m1.id := by
        intro p hp hpc
        obtain ⟨e, he, he1, he2⟩ := mem_intersections _ _ p hp
        obtain ⟨m, hm, hid⟩ := hcoh e he
        rw [he2, hpc, hm1] at hm
        have hmm : m1 = m := by
          injection hm
        rw [he1.symm, hid.symm, hmm]
      obtain ⟨htA, hsigA, hmemA⟩ :=
        addFold_spec c1 m1.id m1.touching hw hits hself s0 evs acc1 hadd
      obtain ⟨htO, hsigO, hmemO⟩ :=
        obsFold_spec c1 m1.touching hw acc1.1 acc1.2 out h
      have htree : out.1.tree = s.tree := by
        rw [htO, htA]
      have hsig : ∀ x, metaSig out.1.meta x = metaSig s.meta x := by
        intro x
        rw [hsigO x, hsigA x, hs0]
        show metaSig (metaSet s.meta c1 ⟨m1.id, m1.bounds, []⟩) x = metaSig s.meta x
        rw [metaSig_metaSet]
        by_cases hx : x = c1
        · rw [if_pos hx, hx]
          unfold metaSig
          rw [hm1]
          rfl
        · rw [if_neg hx]
      have hT0 : ∀ z : ℕ, touchingM s0.meta z =
          if z = c1 then [] else touchingM s.meta z := by
        intro z
        rw [hs0]
        show touchingM (metaSet s.meta c1 ⟨m1.id, m1.bounds, []⟩) z = _
        rw [touchingM_metaSet]
      have hTm : touchingM s.meta c1 = m1.touching := by
        unfold touchingM
        rw [hm1]
        rfl
      have hfc1 : ¬ hitFound hits m1.id c1 := by
        rintro ⟨i, hi, hne⟩
        exact hne (hself (i, c1) hi rfl)
      have hfin : ∀ x y, x ∈ touchingM out.1.meta y ↔
          ((((¬ y = c1) ∧ x ∈ touchingM s.meta y) ∨ (y = c1 ∧ hitFound hits m1.id x) ∨
            (x = c1 ∧ hitFound hits m1.id y)) ∧
           ¬(x = c1 ∧ y ∈ touchingM s.meta c1 ∧ ¬ hitFound hits m1.id y)) := by
        intro x y
        rw [hmemO x y, hmemA x y, hmemA y c1, hT0 y, hT0 c1, ← hTm]
        by_cases hx : x = c1 <;> by_cases hy : y = c1 <;>
          simp only [hx, hy, if_pos, if_neg, if_true, if_false, List.not_mem_nil,
            eq_self_iff_true, true_and, false_and, and_true, and_false, not_false_iff,
            false_or, or_false, not_true, not_not, List.mem_nil_iff] <;>
          tauto
      refine ⟨⟨treeMetaCoh_of_sig s out.1 htree hsig hcoh, ?_, ?_⟩, htree, hsig⟩
      · intro z
        rw [show touchingM out.1.meta z =
          touchingM out.1.meta z from rfl, hfin z z]
        rintro ⟨hd, _⟩
        rcases hd with ⟨hne, hmem⟩ | ⟨he, hf⟩ | ⟨he, hf⟩
        · exact hns z hmem
        · exact hfc1 (he ▸ hf)
        · rw [he] at hf
          exact hfc1 hf
      · intro a b
        rw [touchingOf_eq_touchingM, touchingOf_eq_touchingM, hfin a b, hfin b a]
        have hab := hsym2 a b
        have hac := hsym2 a c1
        have hbc := hsym2 b c1
        by_cases ha : a = c1 <;> by_cases hb : b = c1
        · rw [ha, hb]
        · rw [ha] at hab hac ⊢
          tauto
        · rw [hb] at hab hbc ⊢
          tauto
        · tauto

/-- Inserting a previously unindexed collider preserves the invariant. -/
theorem insertBP_inv {R : Type} [LinearOrderedRing R] (s : BroadPhaseSieveTree R)
    (h : ℕ) (nb : Bounds R) (hmg : metaGet s.meta h = none)
    (hcoh : TreeMetaCoh s) (hns : NoSelf s) (hsym : SymState s) :
    BPInv ⟨⟨s.tree.entries ++ [(s.tree.nextId, h, nb)], s.tree.nextId + 1⟩,
      metaSet s.meta h ⟨s.tree.nextId, nb, []⟩⟩ := by
  have htM : ∀ z : ℕ, touchingM (metaSet s.meta h ⟨s.tree.nextId, nb, []⟩) z =
      touchingM s.meta z := by
    intro z
    rw [touchingM_metaSet]
    by_cases hz : z = h
    · rw [if_pos hz, hz]
      unfold touchingM
      rw [hmg]
      rfl
    · rw [if_neg hz]
  refine ⟨?_, ?_, ?_⟩
  · intro e he
    rcases List.mem_append.mp he with hold | hnew
    · obtain ⟨m, hm, hid⟩ := hcoh e hold
      have hne : e.2.1 ≠ h := by
        intro hh
        rw [hh, hmg] at hm
        cases hm
      refine ⟨m, ?_, hid⟩
      show metaGet (metaSet s.meta h ⟨s.tree.nextId, nb, []⟩) e.2.1 = some m
      rw [metaGet_metaSet, if_neg hne]
      exact hm
    · have he2 : e = (s.tree.nextId, h, nb) := List.mem_singleton.mp hnew
      refine ⟨⟨s.tree.nextId, nb, []⟩, ?_, ?_⟩
      · rw [he2]
        show metaGet (metaSet s.meta h ⟨s.tree.nextId, nb, []⟩) h = _
        rw [metaGet_metaSet, if_pos rfl]
      · rw [he2]
  · intro z
    show z ∉ touchingM (metaSet s.meta h ⟨s.tree.nextId, nb, []⟩) z
    rw [htM z]
    exact hns z
  · intro a b
    show a ∈ touchingM (metaSet s.meta h ⟨s.tree.nextId, nb, []⟩) b ↔
      b ∈ touchingM (metaSet s.meta h ⟨s.tree.nextId, nb, []⟩) a
    rw [htM b, htM a]
    exact hsym a b

/-- Relocating an already-indexed collider preserves the invariant. -/
theorem updateBP_inv {R : Type} [LinearOrderedRing R] (s : BroadPhaseSieveTree R)
    (h : ℕ) (nb : Bounds R) (m : ColliderMeta R) (hmg : metaGet s.meta h = some m)
    (hcoh : TreeMetaCoh s) (hns : NoSelf s) (hsym : SymState s) :
    BPInv ⟨s.tree.update m.id nb, metaSet s.meta h ⟨m.id, nb, m.touching⟩⟩ := by
  have htM : ∀ z : ℕ, touchingM (metaSet s.meta h ⟨m.id, nb, m.touching⟩) z =
      touchingM s.meta z := by
    intro z
    rw [touchingM_metaSet]
    by_cases hz : z = h
    · rw [if_pos hz, hz]
      unfold touchingM
      rw [hmg]
      rfl
    · rw [if_neg hz]
  refine ⟨?_, ?_, ?_⟩
  · intro e he
    have he2 : e ∈ (s.tree.update m.id nb).entries := he
    simp only [SieveTree.update] at he2
    rcases List.mem_map.mp he2 with ⟨e0, he0, hfe⟩
    have hsame : e.1 = e0.1 ∧ e.2.1 = e0.2.1 := by
      rw [← hfe]
      by_cases hc : e0.1 = m.id <;> simp [hc]
    obtain ⟨m0, hm0, hid0⟩ := hcoh e0 he0
    show ∃ mm, metaGet (metaSet s.meta h ⟨m.id, nb, m.touching⟩) e.2.1 = some mm ∧
      mm.id = e.1
    rw [metaGet_metaSet]
    by_cases hz : e.2.1 = h
    · rw [if_pos hz]
      refine ⟨_, rfl, ?_⟩
      show m.id = e.1
      have hm0h : metaGet s.meta h = some m0 := by
        rw [← hz, hsame.2]
        exact hm0
      have hmm : m0 = m := Option.some.inj (hm0h.symm.trans hmg)
      rw [hsame.1, ← hid0, hmm]
    · rw [if_neg hz]
      refine ⟨m0, ?_, ?_⟩
      · rw [hsame.2]
        exact hm0
      · rw [hsame.1]
        exact hid0
  · intro z
    show z ∉ touchingM (metaSet s.meta h ⟨m.id, nb, m.touching⟩) z
    rw [htM z]
    exact hns z
  · intro a b
    show a ∈ touchingM (metaSet s.meta h ⟨m.id, nb, m.touching⟩) b ↔
      b ∈ touchingM (metaSet s.meta h ⟨m.id, nb, m.touching⟩) a
    rw [htM b, htM a]
    exact hsym a b

/-- The bounds-refresh step preserves the invariant. -/
theorem refreshOne_inv {R : Type} [LinearOrderedRing R] (env : ℕ → ColliderInfo R)
    (s : BroadPhaseSieveTree R) (h : ℕ) (hinv : BPInv s) :
    BPInv (refreshOne env s h) := by
  obtain ⟨hcoh, hns, hsym⟩ := hinv
  unfold refreshOne
  simp only []
  split
  · exact ⟨hcoh, hns, hsym⟩
  · split
    next hmg =>
      exact insertBP_inv s h _ hmg hcoh hns hsym
    next m hmg =>
      exact updateBP_inv s h _ m hmg hcoh hns hsym

/-- The whole bounds-refresh loop preserves the invariant. -/
theorem refreshFold_inv {R : Type} [LinearOrderedRing R] (env : ℕ → ColliderInfo R) :
    ∀ (mods : List ℕ) (s : BroadPhaseSieveTree R), BPInv s →
      BPInv (mods.foldl (refreshOne env) s) := by
  intro mods
  induction mods with
  | nil => exact fun s hinv => hinv
  | cons c mods ih =>
      intro s hinv
      exact ih (refreshOne env s c) (refreshOne_inv env s c hinv)

/-- The whole pair-diffing loop preserves the invariant. -/
theorem pairDiffFold_inv {R : Type} [LinearOrderedRing R] (pred : R) :
    ∀ (mods : List ℕ) (s : BroadPhaseSieveTree R) (evs : List BroadPhasePairEvent)
      (out : BroadPhaseSieveTree R × List BroadPhasePairEvent),
      BPInv s → List.foldlM (pairDiffOne pred) (s, evs) mods = some out →
      BPInv out.1 := by
  intro mods
  induction mods with
  | nil =>
      intro s evs out hinv hfold
      simp only [List.foldlM] at hfold
      have hout : out = (s, evs) := by
        cases hfold
        rfl
      rw [hout]
      exact hinv
  | cons c mods ih =>
      intro s evs out hinv hfold
      simp only [List.foldlM] at hfold
      rcases hstep : pairDiffOne pred (s, evs) c with _ | acc1
      · rw [hstep] at hfold
        simp at hfold
      · rw [hstep] at hfold
        simp only [Option.bind_eq_bind, Option.some_bind] at hfold
        obtain ⟨hinv1, _, _⟩ := pairDiffOne_inv pred s evs c acc1 hinv hstep
        exact ih acc1.1 acc1.2 out hinv1 hfold

/-- One `update` call with no removed colliders preserves the invariant. -/
theorem update_inv {R : Type} [LinearOrderedRing R] (s : BroadPhaseSieveTree R)
    (pred : R) (env : ℕ → ColliderInfo R) (mods : List ℕ)
    (out : BroadPhaseSieveTree R × List BroadPhasePairEvent)
    (hinv : BPInv s) (h : s.update pred env mods [] = some out) :
    BPInv out.1 := by
  unfold BroadPhaseSieveTree.update at h
  simp only [List.foldlM] at h
  exact pairDiffFold_inv pred mods _ [] out (refreshFold_inv env mods s hinv) h

/-- The invariant holds along any panic-free removal-free sequence of
updates. -/
theorem runUpdates_inv {R : Type} [LinearOrderedRing R] :
    ∀ (calls : List (UpdateCall R)), (∀ c ∈ calls, c.removed = []) →
      ∀ s : BroadPhaseSieveTree R, BPInv s →
        ∀ sf : BroadPhaseSieveTree R, runUpdates s calls = some sf → BPInv sf := by
  intro calls
  induction calls with
  | nil =>
      intro _ s hinv sf hrun
      unfold runUpdates at hrun
      have hsf : sf = s := by
        cases hrun
        rfl
      rw [hsf]
      exact hinv
  | cons c calls ih =>
      intro hno s hinv sf hrun
      unfold runUpdates at hrun
      rcases hu : s.update c.prediction_distance c.env c.modified c.removed
        with _ | ⟨s1, evs1⟩
      · rw [hu] at hrun
        simp at hrun
      · rw [hu] at hrun
        simp only [] at hrun
        have hrm : c.removed = [] := hno c (List.mem_cons_self _ _)
        rw [hrm] at hu
        have hinv1 : BPInv s1 :=
          update_inv s c.prediction_distance c.env c.modified (s1, evs1) hinv hu
        exact ih (fun d hd => hno d (List.mem_cons_of_mem _ hd)) s1 hinv1 sf hrun

/-- The empty broad phase satisfies the invariant. -/
theorem initBP_inv {R : Type} : BPInv (initBP (R := R)) := by
  refine ⟨?_, ?_, ?_⟩
  · intro e he
    exact absurd he (List.not_mem_nil _)
  · intro h
    exact List.not_mem_nil h
  · intro a b
    constructor
    · intro hh
      exact absurd hh (List.not_mem_nil _)
    · intro hh
      exact absurd hh (List.not_mem_nil _)

/-- C2, amended.  After any sequence of successful `update` calls in which no
collider is ever removed, the touching relation recorded in the collider
metadata is symmetric: A's touching set contains B exactly when B's contains
A, a collider without metadata having an empty touching set.  (The original
claim, over sequences that may include removals, is refuted by
`bp_symmetry_counterexample`: removal deletes a collider's metadata without
cleaning the reciprocal entries in other colliders' sets.) -/
theorem bp_touching_symmetric_without_removals {R : Type} [LinearOrderedRing R]
    (calls : List (UpdateCall R)) (hno : ∀ c ∈ calls, c.removed = [])
    (s : BroadPhaseSieveTree R) (hrun : runUpdates initBP calls = some s) :
    SymState s :=
  (runUpdates_inv calls hno initBP initBP_inv s hrun).2.2

/-- Witness for the amended C2: the state reached by one update indexing two
overlapping colliders is symmetric. -/
theorem bp_touching_symmetric_without_removals_witness : SymState bpS1 :=
  bp_touching_symmetric_without_removals [⟨0, envZ, [1, 2], []⟩]
    (fun c hc => by rw [List.mem_singleton.mp hc]) bpS1 (by decide)
